import Mathlib

/-!
Verification of the GoSQLPage v2 mutation pipeline against its
natural-language specification.

The definitions below are a shallow embedding of the Go source:
 - fractional indexing: src/v2/pkg/blocks/types.go (Between, midpoint,
   incrementPosition, decrementPosition, padRight);
 - session manager: src/v2/pkg/session/manager.go (Create, GetOrCreate,
   CopyBlock, Submit);
 - merger daemon: the merger package embedded in
   src/v2/pkg/metrics/metrics.go (validateSession, applyChanges,
   applyInsert, applyUpdate, applyDelete, applyLink, applyUnlink,
   markConflict, moveToFailed, processSession);
 - conflict resolver: src/v2/pkg/conflicts/resolver.go (ApplyResolution
   and its helpers);
 - page cache: src/v2/pkg/cache/cache.go (KeyForPage, Set, evictOldest).

Modelling conventions: Go byte strings used as ordering keys become
`List Nat` (byte values); SQLite tables become Lean lists of rows kept in
insertion order (Go map iteration, which is unordered, becomes list
order); timestamps become `Nat`; SHA-256 is kept abstract (claims under
verification never depend on concrete digests, only on equality of
hashes); JSON payloads of link/unlink journal rows are modelled as
already-decoded `Ref` values.  I/O failures other than the ones the
control flow branches on (missing rows, constraint violations, commit
failure) are not modelled.
-/

namespace GoSQLPage

/-! ## Fractional indexing (src/v2/pkg/blocks/types.go)

Positions are lowercase-ASCII byte strings, modelled as `List Nat`. -/

def firstChar : Nat := 97

def lastChar : Nat := 122

def midChar : Nat := 109

/-- A position string, as a list of byte values. -/
abbrev Pos := List Nat

/-- Strict lexicographic order on byte strings, the order SQLite and
`strings.Compare` use on the position column. -/
def lexLt : Pos → Pos → Bool
  | [], [] => false
  | [], _ :: _ => true
  | _ :: _, [] => false
  | x :: xs, y :: ys => if x < y then true else if y < x then false else lexLt xs ys

/-- `padRight` from types.go: pad with `pad` up to `length` bytes. -/
def padRight (s : Pos) (length : Nat) (pad : Nat) : Pos :=
  s ++ List.replicate (length - s.length) pad

/-- The character walk inside `midpoint`: both arguments have equal
length (they are the padded strings); at the first differing position,
emit the midpoint character if it is strictly between, otherwise keep
the smaller character and append `midChar`; if the walk exhausts both
strings, append `midChar`. -/
def midLoop : Pos → Pos → Pos
  | bc :: bs, ac :: acs =>
    if bc = ac then bc :: midLoop bs acs
    else
      let mid := (bc + ac) / 2
      if mid = bc then [bc, midChar]
      else [mid]
  | _, _ => [midChar]

/-- `midpoint` from types.go. -/
def midpoint (before after : Pos) : Pos :=
  let maxLen := max before.length after.length
  midLoop (padRight before maxLen firstChar) (padRight after maxLen lastChar)

/-- The scan of `incrementPosition`, acting on the reversed byte list:
increment the rightmost byte below `lastChar`; `none` when every byte is
at `lastChar` or above. -/
def incRev : Pos → Option Pos
  | [] => none
  | c :: rest =>
    if c < lastChar then some ((c + 1) :: rest)
    else (incRev rest).map (fun r => c :: r)

/-- `incrementPosition` from types.go. -/
def incrementPosition (pos : Pos) : Pos :=
  if pos = [] then [midChar]
  else
    match incRev pos.reverse with
    | some r => r.reverse
    | none => pos ++ [midChar]

/-- The scan of `decrementPosition` for indexes other than the last one:
decrement the rightmost byte above `firstChar`; `none` when every byte
is at `firstChar` or below.  (Acts on the reversed byte list.) -/
def decRev : Pos → Option Pos
  | [] => none
  | c :: rest =>
    if firstChar < c then some ((c - 1) :: rest)
    else (decRev rest).map (fun r => c :: r)

/-- Case split of `decrementPosition` on the reversed byte list: the Go
loop first looks at the last byte (`i = len-1`), where the special
`+ midChar` suffix is produced when that byte is decremented down to
`firstChar`; earlier indexes are handled by `decRev` with no suffix. -/
def decRevHead : Pos → Pos
  | [] => [midChar]
  | c :: rest =>
    if firstChar < c then
      if c - 1 = firstChar then (firstChar :: rest).reverse ++ [midChar]
      else ((c - 1) :: rest).reverse
    else
      match decRev rest with
      | some r => (c :: r).reverse
      | none => [firstChar, midChar]

/-- `decrementPosition` from types.go. -/
def decrementPosition (pos : Pos) : Pos :=
  decRevHead pos.reverse

/-- `FractionalIndex.Between` from types.go. -/
def Between (before after : Pos) : Pos :=
  if before = [] ∧ after = [] then [midChar]
  else if before = [] then decrementPosition after
  else if after = [] then incrementPosition before
  else midpoint before after

example : Between [] [] = [midChar] := by decide
example : Between [97] [99] = [98] := by decide
example : Between [97] [98] = [97, 109] := by decide
example : Between [109] [] = [110] := by decide
example : Between [] [109] = [108] := by decide
example : Between [] [97] = [97, 109] := by decide
example : Between [97, 122] [98] = [97, 109] := by decide
example : Between [98] [98, 97] = [98, 97, 109] := by decide

theorem lexLt_append_left (x a b : Pos) : lexLt (x ++ a) (x ++ b) = lexLt a b := by
  induction x with
  | nil => rfl
  | cons c cs ih => simp [lexLt, ih]

theorem lexLt_append_right (a : Pos) :
    ∀ (b s : Pos), a.length = b.length → lexLt a b = true →
      lexLt (a ++ s) (b ++ s) = true := by
  induction a with
  | nil =>
    intro b s hlen h
    cases b with
    | nil => simp [lexLt] at h
    | cons y ys => simp at hlen
  | cons x xs ih =>
    intro b s hlen h
    cases b with
    | nil => simp at hlen
    | cons y ys =>
      by_cases hxy : x < y
      · simp [lexLt, hxy]
      · by_cases hyx : y < x
        · simp [lexLt, hxy, hyx] at h
        · simp [lexLt, hxy, hyx] at h ⊢
          exact ih ys s (by simpa using hlen) h

theorem lexLt_self_append (x s : Pos) (hs : s ≠ []) : lexLt x (x ++ s) = true := by
  induction x with
  | nil =>
    cases s with
    | nil => exact absurd rfl hs
    | cons c cs => simp [lexLt]
  | cons c cs ih => simp [lexLt, ih]

theorem incRev_length : ∀ {l r : Pos}, incRev l = some r → r.length = l.length := by
  intro l
  induction l with
  | nil => intro r h; simp [incRev] at h
  | cons c rest ih =>
    intro r h
    by_cases hc : c < lastChar
    · simp [incRev, hc] at h
      simp [← h]
    · simp [incRev, hc] at h
      obtain ⟨r0, hr0, hr⟩ := h
      simp [← hr, ih hr0]

theorem incRev_lexLt : ∀ {l r : Pos}, incRev l = some r →
    lexLt l.reverse r.reverse = true := by
  intro l
  induction l with
  | nil => intro r h; simp [incRev] at h
  | cons c rest ih =>
    intro r h
    by_cases hc : c < lastChar
    · simp [incRev, hc] at h
      rw [← h]
      simp only [List.reverse_cons]
      rw [lexLt_append_left rest.reverse [c] [c + 1]]
      simp [lexLt]
    · simp [incRev, hc] at h
      obtain ⟨r0, hr0, hr⟩ := h
      rw [← hr]
      simp only [List.reverse_cons]
      exact lexLt_append_right rest.reverse r0.reverse [c]
        (by simp [incRev_length hr0]) (ih hr0)

theorem decRev_length : ∀ {l r : Pos}, decRev l = some r → r.length = l.length := by
  intro l
  induction l with
  | nil => intro r h; simp [decRev] at h
  | cons c rest ih =>
    intro r h
    by_cases hc : firstChar < c
    · simp [decRev, hc] at h
      simp [← h]
    · simp [decRev, hc] at h
      obtain ⟨r0, hr0, hr⟩ := h
      simp [← hr, ih hr0]

theorem decRev_lexLt : ∀ {l r : Pos}, decRev l = some r →
    lexLt r.reverse l.reverse = true := by
  intro l
  induction l with
  | nil => intro r h; simp [decRev] at h
  | cons c rest ih =>
    intro r h
    by_cases hc : firstChar < c
    · simp [decRev, hc] at h
      rw [← h]
      simp only [List.reverse_cons]
      rw [lexLt_append_left rest.reverse [c - 1] [c]]
      have : c - 1 < c := by unfold firstChar at hc; omega
      simp [lexLt, this]
    · simp [decRev, hc] at h
      obtain ⟨r0, hr0, hr⟩ := h
      rw [← hr]
      simp only [List.reverse_cons]
      exact lexLt_append_right r0.reverse rest.reverse [c]
        (by simp [decRev_length hr0]) (ih hr0)

theorem decRev_none : ∀ {l : Pos}, decRev l = none → ∀ x ∈ l, ¬ firstChar < x := by
  intro l
  induction l with
  | nil => intro _ x hx; simp at hx
  | cons c rest ih =>
    intro h x hx
    by_cases hc : firstChar < c
    · simp [decRev, hc] at h
    · simp [decRev, hc] at h
      rcases List.mem_cons.mp hx with hx | hx
      · rw [hx]; exact hc
      · exact ih h x hx

theorem incrementPosition_gt (pos : Pos) (h : pos ≠ []) :
    lexLt pos (incrementPosition pos) = true := by
  unfold incrementPosition
  rw [if_neg h]
  cases hic : incRev pos.reverse with
  | some r =>
    have hx := incRev_lexLt hic
    simp only [List.reverse_reverse] at hx
    exact hx
  | none => exact lexLt_self_append pos [midChar] (by simp)

theorem decrementPosition_lt (pos : Pos)
    (hlow : ∀ x ∈ pos, firstChar ≤ x)
    (hne : ∃ x ∈ pos, x ≠ firstChar) :
    lexLt (decrementPosition pos) pos = true := by
  unfold decrementPosition
  cases hrev : pos.reverse with
  | nil =>
    exfalso
    have : pos = [] := by simpa using congrArg List.reverse hrev
    obtain ⟨x, hx, _⟩ := hne
    rw [this] at hx
    simp at hx
  | cons c rest =>
    have hpos : pos = rest.reverse ++ [c] := by
      have := congrArg List.reverse hrev
      simpa using this
    simp only [decRevHead]
    by_cases hc : firstChar < c
    · rw [if_pos hc]
      by_cases hc1 : c - 1 = firstChar
      · rw [if_pos hc1]
        rw [hpos]
        simp only [List.reverse_cons, List.append_assoc]
        rw [lexLt_append_left rest.reverse ([firstChar] ++ [midChar]) [c]]
        simp [lexLt, hc]
      · rw [if_neg hc1]
        rw [hpos]
        simp only [List.reverse_cons]
        rw [lexLt_append_left rest.reverse [c - 1] [c]]
        have : c - 1 < c := by unfold firstChar at hc; omega
        simp [lexLt, this]
    · rw [if_neg hc]
      have hc97 : c = firstChar := by
        have : firstChar ≤ c := hlow c (by rw [hpos]; simp)
        omega
      cases hdec : decRev rest with
      | some r =>
        rw [hpos]
        simp only [List.reverse_cons]
        exact lexLt_append_right r.reverse rest.reverse [c]
          (by simp [decRev_length hdec]) (decRev_lexLt hdec)
      | none =>
        exfalso
        obtain ⟨x, hx, hxne⟩ := hne
        rw [hpos] at hx
        rcases List.mem_append.mp hx with hx | hx
        · have h1 := decRev_none hdec x (by simpa using hx)
          have h2 := hlow x (by rw [hpos]; exact List.mem_append.mpr (Or.inl hx))
          omega
        · simp at hx
          rw [hx, hc97] at hxne
          exact hxne rfl

theorem between_single_char (x y : Nat) (_hx : firstChar ≤ x) (hxy : x < y)
    (_hy : y ≤ lastChar) :
    lexLt [x] (Between [x] [y]) = true ∧ lexLt (Between [x] [y]) [y] = true := by
  have hB : Between [x] [y] = midLoop [x] [y] := by
    unfold Between midpoint padRight
    simp
  rw [hB]
  unfold midLoop
  rw [if_neg (by omega : ¬ x = y)]
  by_cases hmid : (x + y) / 2 = x
  · simp only [if_pos hmid]
    exact ⟨by simp [lexLt], by simp [lexLt, hxy]⟩
  · simp only [if_neg hmid]
    have h1 : x < (x + y) / 2 := by omega
    have h2 : (x + y) / 2 < y := by omega
    exact ⟨by simp [lexLt, h1], by simp [lexLt, h2]⟩

/-- C5 (corrected).  The original claim — that for every pair of
lowercase position strings with `a < b`, where an empty endpoint means
±∞, `Between a b` lies strictly between the endpoints — is false (see
the counterexample).  What does hold of the code: (1) with an empty
right endpoint, `Between a ""` is strictly greater than a non-empty `a`;
(2) with an empty left endpoint, `Between "" b` is strictly less than
`b` whenever the lowercase string `b` has at least one character other
than `'a'`; (3) for single-character endpoints `x < y`, `Between`
returns a string strictly between them. -/
theorem between_amended :
    (∀ a : Pos, a ≠ [] → lexLt a (Between a []) = true) ∧
    (∀ b : Pos, (∀ x ∈ b, firstChar ≤ x) → (∃ x ∈ b, x ≠ firstChar) →
      lexLt (Between [] b) b = true) ∧
    (∀ x y : Nat, firstChar ≤ x → x < y → y ≤ lastChar →
      lexLt [x] (Between [x] [y]) = true ∧ lexLt (Between [x] [y]) [y] = true) := by
  refine ⟨?_, ?_, between_single_char⟩
  · intro a ha
    have hB : Between a [] = incrementPosition a := by
      unfold Between
      simp [ha]
    rw [hB]
    exact incrementPosition_gt a ha
  · intro b hlow hne
    have hb : b ≠ [] := by
      obtain ⟨x, hx, _⟩ := hne
      intro hcon
      rw [hcon] at hx
      simp at hx
    have hB : Between [] b = decrementPosition b := by
      unfold Between
      simp [hb]
    rw [hB]
    exact decrementPosition_lt b hlow hne

/-- C5 counterexample: with `a = ""` (minus infinity) and `b = "a"`,
`Between` returns `"am"`, which is lexicographically greater than `b`,
so the returned string is not strictly between the endpoints. -/
theorem between_counterexample :
    Between [] [97] = [97, 109] ∧ lexLt (Between [] [97]) [97] = false := by decide

/-- Witness for `between_amended` at concrete inputs. -/
theorem between_amended_witness :
    lexLt [98] (Between [98] []) = true ∧
    lexLt (Between [] [98]) [98] = true ∧
    lexLt [97] (Between [97] [99]) = true :=
  ⟨between_amended.1 [98] (by decide),
   between_amended.2.1 [98] (by decide) (by decide),
   (between_amended.2.2 97 99 (by decide) (by decide) (by decide)).1⟩

/-! ## Data model

`Block`, `Ref` and the per-session rows from src/v2/pkg/blocks/types.go
and the session schema (schema_session.sql).  Timestamps are `Nat`;
hashes are opaque strings.  Session stores carry only the tables the
embedded operations read or write (`_session_meta`, `blocks`,
`_changes`, `_structural_deps`); the session copies of `refs`/`attrs`
are untouched by every operation modelled here. -/

structure Block where
  id : String
  parentId : Option String
  type : String
  content : String
  contentHtml : Option String
  position : String
  hash : String
  createdAt : Nat
  updatedAt : Nat
  createdBy : String
  published : Bool
  deletedAt : Option Nat
deriving DecidableEq

structure Ref where
  fromId : String
  toId : String
  type : String
  anchor : Option String
  createdAt : Nat
  createdBy : String
deriving DecidableEq

/-- Session status values from src/v2/pkg/session/types.go. -/
inductive Status where
  | active
  | submitted
  | merged
  | abandoned
  | conflict
deriving DecidableEq

/-- The single `_session_meta` row. -/
structure SessionMeta where
  sessionId : String
  userId : String
  userType : String
  createdAt : Nat
  lastActivity : Nat
  baseSnapshot : String
  schemaVersion : Nat
  schemaHash : String
  status : Status
deriving DecidableEq

/-- A session `blocks` row: the canonical columns plus `_dirty` and
`_source`. -/
structure SessBlock where
  block : Block
  dirty : Bool
  source : String
deriving DecidableEq

/-- A `_changes` journal row.  The `before`/`after` JSON payloads are
modelled as already-decoded `Ref` values because the merger only ever
decodes them for `link`/`unlink` rows; for block operations it reads the
session `blocks` table instead. -/
structure ChangeRow where
  id : Nat
  operation : String
  blockId : String
  beforeRef : Option Ref
  afterRef : Option Ref
  merged : Bool
deriving DecidableEq

/-- A `_structural_deps` row. -/
structure DepRow where
  blockId : String
  dependsOn : List String
  snapshotHashes : List (String × String)
deriving DecidableEq

/-- One session database file. -/
structure SessionStore where
  meta : SessionMeta
  blocks : List SessBlock
  changes : List ChangeRow
  deps : List DepRow
deriving DecidableEq

/-- The canonical store (content.db). -/
structure Canonical where
  blocks : List Block
  refs : List Ref
deriving DecidableEq

/-- `SELECT ... FROM blocks WHERE id = ?` — note: no `deleted_at`
filter, exactly as in the Go queries that matter below. -/
def findBlock (blocks : List Block) (id : String) : Option Block :=
  blocks.find? (fun b => b.id == id)

/-! ## Session manager (src/v2/pkg/session/manager.go) -/

/-- An in-memory `session.Session` value. -/
structure MemSession where
  id : String
  userId : String
  userType : String
  createdAt : Nat
  lastActivity : Nat
  baseSnapshot : String
  schemaVersion : Nat
  schemaHash : String
  status : Status
  dbPath : String
deriving DecidableEq

/-- Manager state: the in-memory session map (modelled as a list in
registration order), the session database files keyed by session id, and
the file names present in the sessions directory. -/
structure ManagerState where
  sessions : List MemSession
  stores : List (String × SessionStore)
  files : List String
deriving DecidableEq

/-- `Manager.getContentSnapshot`: `fmt.Sprintf("%d:%s", count, maxUpdated)`. -/
def maxUpdated (blocks : List Block) : Option Nat :=
  blocks.foldl
    (fun acc b =>
      match acc with
      | none => some b.updatedAt
      | some m => some (max m b.updatedAt))
    none

def getContentSnapshot (canon : Canonical) : String :=
  toString canon.blocks.length ++ ":" ++
    (match maxUpdated canon.blocks with
     | none => ""
     | some m => toString m)

/-- `Manager.Create`: materialize a fresh session store seeded with the
session schema, insert the `_session_meta` row with status `active`, and
register the session in memory.  `freshId` stands for the generated
`<user>_<ns-ts>_<rand>` id and `now` for `time.Now()`. -/
def createSession (m : ManagerState) (canon : Canonical)
    (schemaVersion : Nat) (schemaHash : String)
    (userID userType freshId : String) (now : Nat) :
    MemSession × ManagerState :=
  let dbPath := freshId ++ ".db"
  let baseSnapshot := getContentSnapshot canon
  let meta : SessionMeta :=
    { sessionId := freshId, userId := userID, userType := userType,
      createdAt := now, lastActivity := now, baseSnapshot := baseSnapshot,
      schemaVersion := schemaVersion, schemaHash := schemaHash,
      status := .active }
  let store : SessionStore := { meta := meta, blocks := [], changes := [], deps := [] }
  let s : MemSession :=
    { id := freshId, userId := userID, userType := userType,
      createdAt := now, lastActivity := now, baseSnapshot := baseSnapshot,
      schemaVersion := schemaVersion, schemaHash := schemaHash,
      status := .active, dbPath := dbPath }
  (s, { sessions := m.sessions ++ [s],
        stores := m.stores ++ [(freshId, store)],
        files := m.files ++ [dbPath] })

/-- `Manager.GetOrCreate`: scan the in-memory sessions map for an
`active` session of the user, otherwise `Create`.  Go's `range` over
the map visits the sessions in a randomized order, so the embedding
takes the enumeration order as the explicit `iter` argument: one call
of the Go function corresponds to a call with some permutation of the
registered sessions.  The `userType` argument is not consulted when
searching. -/
def getOrCreate (m : ManagerState) (iter : List MemSession) (canon : Canonical)
    (schemaVersion : Nat) (schemaHash : String)
    (userID userType freshId : String) (now : Nat) :
    MemSession × ManagerState :=
  match iter.find? (fun s => s.userId == userID && s.status == Status.active) with
  | some s => (s, m)
  | none => createSession m canon schemaVersion schemaHash userID userType freshId now

/-- Apply `f` to the session store of `sessionID`. -/
def updateStore (m : ManagerState) (sessionID : String)
    (f : SessionStore → SessionStore) : ManagerState :=
  { m with stores := m.stores.map (fun p => if p.1 == sessionID then (p.1, f p.2) else p) }

/-- `INSERT OR REPLACE` into the session `blocks` table (primary key `id`). -/
def upsertBlockRow (rows : List SessBlock) (sb : SessBlock) : List SessBlock :=
  if rows.any (fun r => r.block.id == sb.block.id) then
    rows.map (fun r => if r.block.id == sb.block.id then sb else r)
  else rows ++ [sb]

/-- `INSERT OR REPLACE` into `_structural_deps` (primary key `block_id`). -/
def upsertDepRow (rows : List DepRow) (dr : DepRow) : List DepRow :=
  if rows.any (fun r => r.blockId == dr.blockId) then
    rows.map (fun r => if r.blockId == dr.blockId then dr else r)
  else rows ++ [dr]

/-- `Manager.updateLastActivity`: persist `last_activity` and update the
in-memory session. -/
def touchSession (m : ManagerState) (sessionID : String) (now : Nat) : ManagerState :=
  let m1 := updateStore m sessionID
    (fun st => { st with meta := { st.meta with lastActivity := now } })
  let newSessions := m1.sessions.map
    (fun s => if s.id == sessionID then { s with lastActivity := now } else s)
  { m1 with sessions := newSessions }

/-- `Manager.CopyBlock`: copy the canonical row (selected by bare
`WHERE id = ?`, with no `deleted_at` filter) into the session store with
`_dirty = 0`, `_source = 'copy'`, record the structural-dependency row,
and update `last_activity`.  The copied row keeps its `deleted_at`. -/
def copyBlock (m : ManagerState) (canon : Canonical)
    (sessionID blockID : String) (now : Nat) :
    Except String (ManagerState × Block) :=
  match m.sessions.find? (fun s => s.id == sessionID) with
  | none => .error "session not found"
  | some s =>
    if s.status ≠ Status.active then .error "session is not active"
    else
      match findBlock canon.blocks blockID with
      | none => .error "read block"
      | some b =>
        let sb : SessBlock := { block := b, dirty := false, source := "copy" }
        let depList : List String :=
          match b.parentId with
          | some p => [p]
          | none => []
        let depRow : DepRow :=
          { blockId := blockID, dependsOn := depList,
            snapshotHashes := [(blockID, b.hash)] }
        let m1 := updateStore m sessionID
          (fun st => { st with blocks := upsertBlockRow st.blocks sb })
        let m2 := updateStore m1 sessionID
          (fun st => { st with deps := upsertDepRow st.deps depRow })
        .ok (touchSession m2 sessionID now, b)

/-- The queue directories of the merger (file names only). -/
structure QueueDirs where
  pending : List String
  processing : List String
  done : List String
  failed : List String
deriving DecidableEq

/-- Manager plus the merger queue, to make explicit which filesystem
state an operation touches. -/
structure SubmitEnv where
  mgr : ManagerState
  queue : QueueDirs
deriving DecidableEq

/-- `Manager.Submit`: requires status `active`; persists
`status = submitted` in the session store and updates the in-memory
session.  Neither `Submit` nor its caller `API.submitSession` performs
any filesystem operation, so the queue directories and the sessions
directory are returned unchanged. -/
def submit (e : SubmitEnv) (sessionID : String) : Except String SubmitEnv :=
  match e.mgr.sessions.find? (fun s => s.id == sessionID) with
  | none => .error "session not found"
  | some s =>
    if s.status ≠ Status.active then .error "session is not active"
    else
      let m1 := updateStore e.mgr sessionID
        (fun st => { st with meta := { st.meta with status := .submitted } })
      let newSessions := m1.sessions.map
        (fun t => if t.id == sessionID then { t with status := .submitted } else t)
      .ok { mgr := { m1 with sessions := newSessions }, queue := e.queue }

/-- A scan that can hit only one element returns it under every
enumeration order: when `a ∈ l` satisfies `p` and every element of `l`
satisfying `p` equals `a`, `find?` returns `a`. -/
theorem find?_eq_of_unique {α : Type} (p : α → Bool) (a : α) :
    ∀ (l : List α), a ∈ l → p a = true → (∀ b ∈ l, p b = true → b = a) →
      l.find? p = some a := by
  intro l
  induction l with
  | nil => intro ha _ _; simp at ha
  | cons x xs ih =>
    intro ha hpa huniq
    by_cases hx : p x = true
    · rw [List.find?_cons_of_pos _ hx]
      rw [huniq x (List.mem_cons_self x xs) hx]
    · rw [List.find?_cons_of_neg _ hx]
      have ha2 : a ∈ xs := by
        rcases List.mem_cons.mp ha with h1 | h1
        · exfalso; rw [h1] at hpa; exact hx hpa
        · exact h1
      exact ih ha2 hpa (fun b hb hpb => huniq b (List.mem_cons_of_mem x hb) hpb)

/-- C9 (corrected).  The original claim's final conjunct — that two
consecutive `GetOrCreate` calls for the same user id always return the
same session — is false on the code: the sessions map is scanned in
Go's randomized iteration order, and when the user has two active
sessions (a reachable state: `Manager.Create` is public and the API's
session-creation endpoint calls it unconditionally) different
enumeration orders return different sessions (see the counterexample).
What holds, for every enumeration order that is a permutation of the
registered sessions: whenever the scan finds a session, the returned
session is one of the user's registered active sessions — regardless of
the `userType` argument — and the manager state is unchanged: no
session, store or file is created; and when the user has at most one
active session, two consecutive calls, each under any enumeration
order, do return the same session. -/
theorem getOrCreate_amended
    (m : ManagerState) (iter : List MemSession) (canon : Canonical)
    (sv : Nat) (sh : String) (userID userType freshId : String) (now : Nat)
    (hperm : iter.Perm m.sessions) :
    (∀ s, iter.find?
        (fun t => t.userId == userID && t.status == Status.active) = some s →
      getOrCreate m iter canon sv sh userID userType freshId now = (s, m) ∧
      s ∈ m.sessions ∧ s.userId = userID ∧ s.status = Status.active) ∧
    (∀ (ut2 f2 : String) (n2 : Nat) (iter2 : List MemSession),
      (∀ a ∈ m.sessions, ∀ b ∈ m.sessions,
        (a.userId == userID && a.status == Status.active) = true →
        (b.userId == userID && b.status == Status.active) = true → a = b) →
      iter2.Perm (getOrCreate m iter canon sv sh userID userType freshId now).2.sessions →
      (getOrCreate (getOrCreate m iter canon sv sh userID userType freshId now).2
          iter2 canon sv sh userID ut2 f2 n2).1 =
        (getOrCreate m iter canon sv sh userID userType freshId now).1) := by
  constructor
  · intro s hs
    have hps := List.find?_some hs
    have hmem : s ∈ m.sessions := hperm.mem_iff.mp (List.mem_of_find?_eq_some hs)
    have hps2 : s.userId = userID ∧ s.status = Status.active := by simpa using hps
    refine ⟨?_, hmem, hps2.1, hps2.2⟩
    unfold getOrCreate
    rw [hs]
  · intro ut2 f2 n2 iter2 huniq hperm2
    cases hf : iter.find?
        (fun t => t.userId == userID && t.status == Status.active) with
    | some s =>
      have hres : getOrCreate m iter canon sv sh userID userType freshId now = (s, m) := by
        unfold getOrCreate
        rw [hf]
      rw [hres] at hperm2 ⊢
      have hps := List.find?_some hf
      have hmem : s ∈ m.sessions := hperm.mem_iff.mp (List.mem_of_find?_eq_some hf)
      have hfind2 : iter2.find?
          (fun t => t.userId == userID && t.status == Status.active) = some s := by
        apply find?_eq_of_unique _ s iter2 (hperm2.mem_iff.mpr hmem) hps
        intro b hb hpb
        exact huniq b (hperm2.mem_iff.mp hb) s hmem hpb hps
      unfold getOrCreate
      rw [hfind2]
    | none =>
      have hres : getOrCreate m iter canon sv sh userID userType freshId now =
          createSession m canon sv sh userID userType freshId now := by
        unfold getOrCreate
        rw [hf]
      rw [hres] at hperm2 ⊢
      have h21 : (createSession m canon sv sh userID userType freshId now).2.sessions =
          m.sessions ++ [(createSession m canon sv sh userID userType freshId now).1] := rfl
      rw [h21] at hperm2
      have hpnew : ((createSession m canon sv sh userID userType freshId now).1.userId
            == userID &&
          (createSession m canon sv sh userID userType freshId now).1.status
            == Status.active) = true := by
        simp [createSession]
      have hfind2 : iter2.find?
          (fun t => t.userId == userID && t.status == Status.active) =
          some (createSession m canon sv sh userID userType freshId now).1 := by
        apply find?_eq_of_unique _ _ iter2
          (hperm2.mem_iff.mpr (List.mem_append.mpr (Or.inr (by simp)))) hpnew
        intro b hb hpb
        rcases List.mem_append.mp (hperm2.mem_iff.mp hb) with h1 | h1
        · exfalso
          exact (List.find?_eq_none.mp hf) b (hperm.mem_iff.mpr h1) hpb
        · simpa using h1
      unfold getOrCreate
      rw [hfind2]

/-- C7 (corrected).  The original claim says `CopyBlock` fails with
NotFound whenever the canonical block is absent *or soft-deleted*; in
fact the canonical read has no `deleted_at` filter, so a soft-deleted
block is copied successfully (see the counterexample).  What holds:
`CopyBlock` fails NotActive when the session status is not `active`,
fails NotFound exactly when no canonical row with that id exists at all,
and succeeds otherwise; in the failure cases no state is produced, so
the session store gains neither a copied block row nor a dependency
row. -/
theorem copyBlock_amended
    (m : ManagerState) (canon : Canonical) (sessionID blockID : String)
    (now : Nat) (s : MemSession)
    (hs : m.sessions.find? (fun t => t.id == sessionID) = some s) :
    (s.status ≠ Status.active →
      copyBlock m canon sessionID blockID now = .error "session is not active") ∧
    (s.status = Status.active → findBlock canon.blocks blockID = none →
      copyBlock m canon sessionID blockID now = .error "read block") ∧
    (s.status = Status.active → ∀ b, findBlock canon.blocks blockID = some b →
      ∃ m2, copyBlock m canon sessionID blockID now = .ok (m2, b)) := by
  refine ⟨?_, ?_, ?_⟩
  · intro hna
    simp only [copyBlock, hs]
    rw [if_pos hna]
  · intro ha hnone
    simp only [copyBlock, hs, hnone]
    rw [if_neg (by simp [ha])]
  · intro ha b hb
    simp only [copyBlock, hs, hb]
    rw [if_neg (by simp [ha])]
    exact ⟨_, rfl⟩

def c7Block : Block :=
  { id := "b1", parentId := none, type := "paragraph", content := "x",
    contentHtml := none, position := "m", hash := "h1", createdAt := 0,
    updatedAt := 0, createdBy := "u1", published := true, deletedAt := some 3 }

def c7Session : MemSession :=
  { id := "s1", userId := "u1", userType := "human", createdAt := 0,
    lastActivity := 0, baseSnapshot := "0:", schemaVersion := 1,
    schemaHash := "sh", status := .active, dbPath := "s1.db" }

def c7Meta : SessionMeta :=
  { sessionId := "s1", userId := "u1", userType := "human",
    createdAt := 0, lastActivity := 0, baseSnapshot := "0:",
    schemaVersion := 1, schemaHash := "sh", status := .active }

def c7Store : SessionStore :=
  { meta := c7Meta, blocks := [], changes := [], deps := [] }

def c7Manager : ManagerState :=
  { sessions := [c7Session], stores := [("s1", c7Store)], files := ["s1.db"] }

/-- C7 counterexample: the canonical block `b1` is soft-deleted
(`deleted_at = 3`), yet `CopyBlock` on an active session succeeds
instead of failing with NotFound. -/
theorem copyBlock_deleted_counterexample :
    c7Block.deletedAt = some 3 ∧
    (copyBlock c7Manager { blocks := [c7Block], refs := [] } "s1" "b1" 7).isOk = true := by
  decide

/-- Witness for `copyBlock_amended` at a concrete input. -/
theorem copyBlock_amended_witness :
    copyBlock c7Manager { blocks := [], refs := [] } "s1" "zz" 7 = .error "read block" :=
  (copyBlock_amended c7Manager { blocks := [], refs := [] } "s1" "zz" 7 c7Session
      (by decide)).2.1 (by decide) (by decide)

def c1Session : MemSession :=
  { id := "s1", userId := "u1", userType := "human", createdAt := 0,
    lastActivity := 0, baseSnapshot := "0:", schemaVersion := 1,
    schemaHash := "sh", status := .active, dbPath := "s1.db" }

def c1Meta : SessionMeta :=
  { sessionId := "s1", userId := "u1", userType := "human",
    createdAt := 0, lastActivity := 0, baseSnapshot := "0:",
    schemaVersion := 1, schemaHash := "sh", status := .active }

def c1Store : SessionStore :=
  { meta := c1Meta, blocks := [], changes := [], deps := [] }

def c1Env : SubmitEnv :=
  { mgr := { sessions := [c1Session], stores := [("s1", c1Store)], files := ["s1.db"] },
    queue := { pending := [], processing := [], done := [], failed := [] } }

def c9Session : MemSession :=
  { id := "s9", userId := "u9", userType := "bot", createdAt := 0,
    lastActivity := 0, baseSnapshot := "0:", schemaVersion := 1,
    schemaHash := "sh", status := .active, dbPath := "s9.db" }

def c9Manager : ManagerState :=
  { sessions := [c9Session], stores := [], files := ["s9.db"] }

def c9Canon : Canonical := { blocks := [], refs := [] }

/-- Witness for `getOrCreate_amended` at a concrete input: the single
stored active session has `user_type = "bot"`, the call passes
`"human"`, and the stored session is returned with the state unchanged;
a second call returns the same session. -/
theorem getOrCreate_amended_witness :
    getOrCreate c9Manager [c9Session] c9Canon 1 "sh" "u9" "human" "f1" 3 =
      (c9Session, c9Manager) ∧
    (getOrCreate (getOrCreate c9Manager [c9Session] c9Canon 1 "sh" "u9" "human"
          "f1" 3).2 [c9Session] c9Canon 1 "sh" "u9" "bot" "f2" 4).1 =
      (getOrCreate c9Manager [c9Session] c9Canon 1 "sh" "u9" "human" "f1" 3).1 :=
  ⟨((getOrCreate_amended c9Manager [c9Session] c9Canon 1 "sh" "u9" "human" "f1" 3
      (List.Perm.refl _)).1 c9Session (by decide)).1,
   (getOrCreate_amended c9Manager [c9Session] c9Canon 1 "sh" "u9" "human" "f1" 3
      (List.Perm.refl _)).2 "bot" "f2" 4 [c9Session] (by decide) (List.Perm.refl _)⟩

def c9SessionB : MemSession :=
  { id := "s9b", userId := "u9", userType := "human", createdAt := 1,
    lastActivity := 1, baseSnapshot := "0:", schemaVersion := 1,
    schemaHash := "sh", status := .active, dbPath := "s9b.db" }

def c9ManagerTwo : ManagerState :=
  { sessions := [c9Session, c9SessionB], stores := [], files := ["s9.db", "s9b.db"] }

/-- C9 counterexample: when the user has two active sessions — a
reachable state, since `Manager.Create` is public and the API's
session-creation endpoint calls it unconditionally — the session that
`GetOrCreate` returns depends on the randomized map enumeration order:
the two orders, both permutations of the registered sessions, return
the two different sessions, so two consecutive calls need not return
the same session. -/
theorem getOrCreate_order_dependent :
    List.Perm [c9Session, c9SessionB] c9ManagerTwo.sessions ∧
    List.Perm [c9SessionB, c9Session] c9ManagerTwo.sessions ∧
    (getOrCreate c9ManagerTwo [c9Session, c9SessionB] c9Canon
        1 "sh" "u9" "human" "f1" 3).1 = c9Session ∧
    (getOrCreate c9ManagerTwo [c9SessionB, c9Session] c9Canon
        1 "sh" "u9" "human" "f1" 3).1 = c9SessionB ∧
    c9Session ≠ c9SessionB :=
  ⟨List.Perm.refl _, List.Perm.swap c9Session c9SessionB [],
   by decide, by decide, by decide⟩

/-- C1 (code_bug).  On an active session, `Submit` succeeds and the
status transitions to `submitted` both in the session store and in
memory — but the session database file is never moved: it is still in
the sessions directory and the merger queue's `pending/` directory stays
empty.  No filesystem rename is performed by `Manager.Submit` or by its
caller `API.submitSession`, contradicting the specified (and
README-documented) hand-off of the file to the merger queue. -/
theorem submit_does_not_enqueue :
    (Except.toOption (submit c1Env "s1")).map
        (fun e => (e.mgr.sessions.map (fun t => t.status),
                   e.mgr.stores.map (fun p => p.2.meta.status),
                   e.mgr.files, e.queue)) =
      some ([Status.submitted], [Status.submitted], ["s1.db"],
            ({ pending := [], processing := [], done := [], failed := [] } : QueueDirs)) := by
  decide

/-! ## Merger daemon (merger package, in src/v2/pkg/metrics/metrics.go) -/

/-- A `session.Conflict` (its `Type` is a Go string constant). -/
structure Conflict where
  blockId : String
  type : String
  message : String
deriving DecidableEq

/-- Step 2 of `validateSession` for one `_structural_deps` row: for each
`(depId, expectedHash)` entry of the snapshot-hash map, a missing
canonical row yields a Deleted conflict and a differing hash a Content
conflict. -/
def depConflicts (canon : Canonical) (hashes : List (String × String)) :
    List Conflict :=
  hashes.foldl
    (fun acc kv =>
      match findBlock canon.blocks kv.1 with
      | none =>
        acc ++ [{ blockId := kv.1, type := "deleted",
                  message := "block was deleted in content.db" }]
      | some b =>
        if b.hash ≠ kv.2 then
          acc ++ [{ blockId := kv.1, type := "content",
                    message := "hash mismatch: expected " ++ kv.2 ++ ", got " ++ b.hash }]
        else acc)
    []

/-- Step 3 of `validateSession`: for every dirty session block with a
`parent_id`, the parent must have a canonical row (any row — there is
no `deleted_at` filter) or be a block with `_source = 'new'` in the same
session; otherwise a Structure conflict. -/
def structureConflicts (canon : Canonical) (store : SessionStore) : List Conflict :=
  (store.blocks.filter (fun sb => sb.dirty)).foldl
    (fun acc sb =>
      match sb.block.parentId with
      | none => acc
      | some p =>
        match findBlock canon.blocks p with
        | some _ => acc
        | none =>
          if store.blocks.any (fun r => r.block.id == p && r.source == "new") then acc
          else acc ++ [{ blockId := sb.block.id, type := "structure",
                         message := "parent " ++ p ++ " does not exist" }])
    []

/-- `Merger.validateSession`: a session schema version newer than the
canonical one is a hard error; otherwise collect the dependency
conflicts of every `_structural_deps` row followed by the structure
conflicts of the dirty blocks. -/
def validateSession (currentVersion : Nat) (store : SessionStore)
    (canon : Canonical) : Except String (List Conflict) :=
  if store.meta.schemaVersion > currentVersion then
    .error ("session schema version " ++ toString store.meta.schemaVersion ++
            " is newer than current " ++ toString currentVersion)
  else
    let cs1 := store.deps.foldl (fun acc d => acc ++ depConflicts canon d.snapshotHashes) []
    .ok (cs1 ++ structureConflicts canon store)

/-- `Merger.applyInsert`: read the session row (error when absent), then
`INSERT INTO blocks` on the canonical store.  The insert lists every
column except `deleted_at`, so the canonical row gets `deleted_at =
NULL`; a duplicate primary key is a constraint error. -/
def applyInsert (tx : Canonical) (store : SessionStore) (blockID : String) :
    Except String Canonical :=
  match store.blocks.find? (fun r => r.block.id == blockID) with
  | none => .error "no rows in result set"
  | some sb =>
    if tx.blocks.any (fun b => b.id == blockID) then
      .error "UNIQUE constraint failed: blocks.id"
    else
      .ok { tx with blocks := tx.blocks ++ [{ sb.block with deletedAt := none }] }

/-- `Merger.applyUpdate`: read the session row (error when absent), then
update the targeted columns of the canonical row with that id (a
no-match update succeeds and changes nothing). -/
def applyUpdate (tx : Canonical) (store : SessionStore) (blockID : String) :
    Except String Canonical :=
  match store.blocks.find? (fun r => r.block.id == blockID) with
  | none => .error "no rows in result set"
  | some sb =>
    let newBlocks := tx.blocks.map (fun b =>
      if b.id == blockID then
        { b with content := sb.block.content, contentHtml := sb.block.contentHtml,
                 position := sb.block.position, hash := sb.block.hash,
                 updatedAt := sb.block.updatedAt, published := sb.block.published }
      else b)
    .ok { tx with blocks := newBlocks }

/-- `Merger.applyDelete`: soft-delete by setting `deleted_at` and
`updated_at` on the canonical row with that id. -/
def applyDelete (tx : Canonical) (blockID : String) (now : Nat) : Canonical :=
  let newBlocks := tx.blocks.map (fun b =>
    if b.id == blockID then { b with deletedAt := some now, updatedAt := now } else b)
  { tx with blocks := newBlocks }

def refKeyEq (r s : Ref) : Bool :=
  r.fromId == s.fromId && r.toId == s.toId && r.type == s.type

/-- `Merger.applyLink`: `INSERT OR REPLACE INTO refs` (primary key
`(from_id, to_id, type)`). -/
def applyLink (tx : Canonical) (ref : Ref) : Canonical :=
  if tx.refs.any (fun r => refKeyEq r ref) then
    { tx with refs := tx.refs.map (fun r => if refKeyEq r ref then ref else r) }
  else { tx with refs := tx.refs ++ [ref] }

/-- `Merger.applyUnlink`: `DELETE FROM refs WHERE from_id=? AND to_id=?
AND type=?`. -/
def applyUnlink (tx : Canonical) (ref : Ref) : Canonical :=
  { tx with refs := tx.refs.filter (fun r => !(refKeyEq r ref)) }

structure MergeResult where
  inserted : Nat
  updated : Nat
  deleted : Nat
deriving DecidableEq

/-- The dispatch of one journal row inside the `applyChanges` loop.  A
`link` row with a NULL `after` and an `unlink` row with a NULL `before`
are skipped, as is any unknown operation. -/
def applyOneChange (store : SessionStore) (now : Nat) (c : ChangeRow)
    (tx : Canonical) : Except String Canonical :=
  if c.operation == "insert" then applyInsert tx store c.blockId
  else if c.operation == "update" then applyUpdate tx store c.blockId
  else if c.operation == "delete" then .ok (applyDelete tx c.blockId now)
  else if c.operation == "link" then
    match c.afterRef with
    | some ref => .ok (applyLink tx ref)
    | none => .ok tx
  else if c.operation == "unlink" then
    match c.beforeRef with
    | some ref => .ok (applyUnlink tx ref)
    | none => .ok tx
  else .ok tx

/-- The per-row counter updates of the `applyChanges` loop. -/
def countChange (c : ChangeRow) (res : MergeResult) : MergeResult :=
  if c.operation == "insert" then { res with inserted := res.inserted + 1 }
  else if c.operation == "update" then { res with updated := res.updated + 1 }
  else if c.operation == "delete" then { res with deleted := res.deleted + 1 }
  else res

/-- The journal loop of `applyChanges`: apply each row in order inside
the transaction, stopping at the first error. -/
def runChanges (store : SessionStore) (now : Nat) :
    Canonical → MergeResult → List ChangeRow →
    Except String (Canonical × MergeResult)
  | tx, res, [] => .ok (tx, res)
  | tx, res, c :: rest =>
    match applyOneChange store now c tx with
    | .error e => .error e
    | .ok tx2 => runChanges store now tx2 (countChange c res) rest

/-- The specification-side reading of a merge: apply every journal row
in order, propagating the first error, with no counters. -/
def applyAll (store : SessionStore) (now : Nat) :
    Canonical → List ChangeRow → Except String Canonical
  | tx, [] => .ok tx
  | tx, c :: rest =>
    match applyOneChange store now c tx with
    | .error e => .error e
    | .ok tx2 => applyAll store now tx2 rest

/-- `Merger.applyChanges`: select the `_changes` rows with `merged = 0`
in id order (the journal list is kept in id order, as ids are assigned
by AUTOINCREMENT on append), run them inside one transaction on the
canonical store, and commit.  On any error — including a failing commit,
modelled by the `commitOk` flag — the transaction is rolled back and the
canonical store is returned unchanged.  After a successful commit every
journal row is marked `merged = 1` and the session status is set to
`merged`. -/
def applyChanges (store : SessionStore) (canon : Canonical) (now : Nat)
    (commitOk : Bool) : Canonical × SessionStore × Except String MergeResult :=
  let pending := store.changes.filter (fun c => !c.merged)
  match runChanges store now canon { inserted := 0, updated := 0, deleted := 0 } pending with
  | .error e => (canon, store, .error e)
  | .ok (tx, res) =>
    if commitOk then
      let newChanges := store.changes.map (fun c => { c with merged := true })
      let newMeta := { store.meta with status := Status.merged }
      (tx, { store with changes := newChanges, meta := newMeta }, .ok res)
    else (canon, store, .error "commit")

deriving instance DecidableEq for Except

theorem runChanges_applyAll (store : SessionStore) (now : Nat) :
    ∀ (cs : List ChangeRow) (tx : Canonical) (res : MergeResult),
      (runChanges store now tx res cs).map Prod.fst = applyAll store now tx cs := by
  intro cs
  induction cs with
  | nil => intro tx res; rfl
  | cons c rest ih =>
    intro tx res
    simp only [runChanges, applyAll]
    cases applyOneChange store now c tx with
    | error e => rfl
    | ok tx2 => exact ih tx2 (countChange c res)

/-- C2 (confirmed).  The merge of a session's journal is atomic: when
`applyChanges` reports an error (validation of row application or the
commit itself), the canonical store and the session store are exactly
the input ones — no partial apply; when it reports success, the
resulting canonical store is the in-order application of every
`_changes` row with `merged = 0`, all journal rows are marked merged and
the session status becomes `merged`. -/
theorem applyChanges_atomic (store : SessionStore) (canon : Canonical)
    (now : Nat) (commitOk : Bool) :
    (∀ e, (applyChanges store canon now commitOk).2.2 = .error e →
      (applyChanges store canon now commitOk).1 = canon ∧
      (applyChanges store canon now commitOk).2.1 = store) ∧
    (∀ res, (applyChanges store canon now commitOk).2.2 = .ok res →
      applyAll store now canon (store.changes.filter (fun c => !c.merged)) =
        .ok (applyChanges store canon now commitOk).1 ∧
      (∀ c ∈ (applyChanges store canon now commitOk).2.1.changes, c.merged = true) ∧
      (applyChanges store canon now commitOk).2.1.meta.status = Status.merged) := by
  cases hrun : runChanges store now canon { inserted := 0, updated := 0, deleted := 0 }
      (store.changes.filter (fun c => !c.merged)) with
  | error e0 =>
    refine ⟨fun e he => ?_, fun res hres => ?_⟩
    · constructor <;> simp [applyChanges, hrun]
    · simp [applyChanges, hrun] at hres
  | ok p =>
    obtain ⟨tx, res0⟩ := p
    cases commitOk with
    | false =>
      refine ⟨fun e he => ?_, fun res hres => ?_⟩
      · constructor <;> simp [applyChanges, hrun]
      · simp [applyChanges, hrun] at hres
    | true =>
      refine ⟨fun e he => ?_, fun res hres => ?_⟩
      · simp [applyChanges, hrun] at he
      · refine ⟨?_, ?_, ?_⟩
        · have hrel := runChanges_applyAll store now
            (store.changes.filter (fun c => !c.merged)) canon
            { inserted := 0, updated := 0, deleted := 0 }
          rw [hrun] at hrel
          simp only [Except.map] at hrel
          rw [← hrel]
          simp [applyChanges, hrun]
        · intro c hc
          have h2 : (applyChanges store canon now true).2.1.changes =
              store.changes.map (fun c => { c with merged := true }) := by
            simp [applyChanges, hrun]
          rw [h2] at hc
          simp only [List.mem_map] at hc
          obtain ⟨c0, _, hc0⟩ := hc
          rw [← hc0]
        · simp [applyChanges, hrun]

def c2Block : Block :=
  { id := "b1", parentId := none, type := "paragraph", content := "Hello",
    contentHtml := none, position := "m", hash := "hb", createdAt := 1,
    updatedAt := 1, createdBy := "u1", published := false, deletedAt := none }

def c2Meta : SessionMeta :=
  { sessionId := "s2", userId := "u1", userType := "human",
    createdAt := 0, lastActivity := 0, baseSnapshot := "0:",
    schemaVersion := 1, schemaHash := "sh", status := .submitted }

def c2Store : SessionStore :=
  { meta := c2Meta,
    blocks := [{ block := c2Block, dirty := true, source := "new" }],
    changes := [{ id := 1, operation := "insert", blockId := "b1",
                  beforeRef := none, afterRef := none, merged := false }],
    deps := [] }

/-- Witness for `applyChanges_atomic` at a concrete input (one pending
insert applied to an empty canonical store). -/
theorem applyChanges_atomic_witness :
    applyAll c2Store 4 { blocks := [], refs := [] }
        (c2Store.changes.filter (fun c => !c.merged)) =
      .ok (applyChanges c2Store { blocks := [], refs := [] } 4 true).1 :=
  ((applyChanges_atomic c2Store { blocks := [], refs := [] } 4 true).2
    { inserted := 1, updated := 0, deleted := 0 } (by decide)).1

/-- `Merger.markConflict`: set `_session_meta.status = 'conflict'`.  The
conflict list is serialized to JSON only to be written to the log; no
other part of the session store is written (the session schema has no
table for conflicts). -/
def markConflict (store : SessionStore) (_conflicts : List Conflict) : SessionStore :=
  { store with meta := { store.meta with status := Status.conflict } }

/-- `Merger.moveToFailed`: rename the file from `processing/` into
`failed/`. -/
def moveToFailed (q : QueueDirs) (filename : String) : QueueDirs :=
  { q with processing := q.processing.filter (fun f => !(f == filename)),
           failed := q.failed ++ [filename] }

/-- Merger daemon state: the canonical store, the queue directories, the
merge counters and the audit `merge_log`. -/
structure MergerState where
  canon : Canonical
  queue : QueueDirs
  mergesTotal : Nat
  mergesSuccess : Nat
  mergesFailed : Nat
  mergesConflict : Nat
  mergeLog : List (String × MergeResult)
deriving DecidableEq

/-- `Merger.processSession` for one queue file: claim it by renaming it
from `pending/` into `processing/`, load the metadata (always succeeds
in the model), validate, and then either record the conflict status and
move the file to `failed/`, or apply the changes and move the file to
`done/` (to `failed/` when the transaction fails).  The file's session
store is threaded explicitly; `currentVersion` is the canonical schema
version and `commitOk` models the fallibility of the commit. -/
def processSession (ms : MergerState) (filename : String) (store : SessionStore)
    (currentVersion : Nat) (now : Nat) (commitOk : Bool) :
    MergerState × SessionStore × Except String Unit :=
  let ms1 := { ms with mergesTotal := ms.mergesTotal + 1 }
  if filename ∈ ms1.queue.pending then
    let q1 : QueueDirs :=
      { ms1.queue with pending := ms1.queue.pending.filter (fun f => !(f == filename)),
                       processing := ms1.queue.processing ++ [filename] }
    match validateSession currentVersion store ms1.canon with
    | .error e =>
      ({ ms1 with queue := moveToFailed q1 filename,
                  mergesFailed := ms1.mergesFailed + 1 }, store, .error e)
    | .ok conflicts =>
      if conflicts ≠ [] then
        ({ ms1 with queue := moveToFailed q1 filename,
                    mergesConflict := ms1.mergesConflict + 1 },
         markConflict store conflicts, .error "conflicts detected")
      else
        match applyChanges store ms1.canon now commitOk with
        | (canon2, store2, r) =>
          match r with
          | .error e =>
            ({ ms1 with canon := canon2, queue := moveToFailed q1 filename,
                        mergesFailed := ms1.mergesFailed + 1 }, store2, .error e)
          | .ok res =>
            let q2 : QueueDirs :=
              { q1 with processing := q1.processing.filter (fun f => !(f == filename)),
                        done := q1.done ++ [filename] }
            ({ ms1 with canon := canon2, queue := q2,
                        mergesSuccess := ms1.mergesSuccess + 1,
                        mergeLog := ms1.mergeLog ++ [(store.meta.sessionId, res)] },
             store2, .ok ())
  else (ms1, store, .error "move to processing")

/-- C3 (corrected).  When validation produces one or more conflicts the
merger does set the session's status to `conflict` and rename the file
into `failed/`, leaving the canonical store untouched — but it does not
persist the conflict list into the session store: the resulting session
store is exactly the input store with only the status flag changed (the
conflicts are only serialized into a log line; the resolver later
recomputes them from `_structural_deps`). -/
theorem processSession_conflict_amended
    (ms : MergerState) (filename : String) (store : SessionStore)
    (cv : Nat) (now : Nat) (commitOk : Bool) (conflicts : List Conflict)
    (hpend : filename ∈ ms.queue.pending)
    (hval : validateSession cv store ms.canon = .ok conflicts)
    (hne : conflicts ≠ []) :
    (processSession ms filename store cv now commitOk).2.1 =
      { store with meta := { store.meta with status := Status.conflict } } ∧
    filename ∈ (processSession ms filename store cv now commitOk).1.queue.failed ∧
    (processSession ms filename store cv now commitOk).1.canon = ms.canon := by
  unfold processSession
  rw [if_pos hpend]
  simp [hval, hne, markConflict, moveToFailed]

def c3Meta : SessionMeta :=
  { sessionId := "s3", userId := "u1", userType := "human",
    createdAt := 0, lastActivity := 0, baseSnapshot := "0:",
    schemaVersion := 1, schemaHash := "sh", status := .submitted }

def c3CanonBlock : Block :=
  { id := "b1", parentId := none, type := "paragraph", content := "Hi",
    contentHtml := none, position := "m", hash := "h2", createdAt := 1,
    updatedAt := 2, createdBy := "u2", published := true, deletedAt := none }

def c3SessBlock : Block :=
  { id := "b1", parentId := none, type := "paragraph", content := "Hey",
    contentHtml := none, position := "m", hash := "h3", createdAt := 1,
    updatedAt := 3, createdBy := "u2", published := true, deletedAt := none }

def c3Store : SessionStore :=
  { meta := c3Meta,
    blocks := [{ block := c3SessBlock, dirty := true, source := "copy" }],
    changes := [{ id := 1, operation := "update", blockId := "b1",
                  beforeRef := none, afterRef := none, merged := false }],
    deps := [{ blockId := "b1", dependsOn := [],
               snapshotHashes := [("b1", "h1")] }] }

def c3Merger : MergerState :=
  { canon := { blocks := [c3CanonBlock], refs := [] },
    queue := { pending := ["s3.db"], processing := [], done := [], failed := [] },
    mergesTotal := 0, mergesSuccess := 0, mergesFailed := 0,
    mergesConflict := 0, mergeLog := [] }

def c3StoreAfter : SessionStore :=
  { c3Store with meta := { c3Meta with status := Status.conflict } }

/-- C3 counterexample: a concrete session whose dependency snapshot hash
(`h1`) differs from the canonical hash (`h2`), so validation produces a
Content conflict — yet after `processSession` the session store is
*exactly* the input store with only `status` flipped to `conflict`: no
JSON conflict list is persisted anywhere in the session store for the
resolver to retrieve. -/
theorem markConflict_no_persist_counterexample :
    validateSession 1 c3Store c3Merger.canon =
      .ok [{ blockId := "b1", type := "content",
             message := "hash mismatch: expected h1, got h2" }] ∧
    (processSession c3Merger "s3.db" c3Store 1 9 true).2.1 = c3StoreAfter ∧
    (processSession c3Merger "s3.db" c3Store 1 9 true).1.queue.failed = ["s3.db"] := by
  decide

/-- Witness for `processSession_conflict_amended` at the same concrete
scenario. -/
theorem processSession_conflict_witness :
    (processSession c3Merger "s3.db" c3Store 1 9 true).1.canon = c3Merger.canon :=
  (processSession_conflict_amended c3Merger "s3.db" c3Store 1 9 true
    [{ blockId := "b1", type := "content",
       message := "hash mismatch: expected h1, got h2" }]
    (by decide) (by decide) (by decide)).2.2

def c4Parent : Block :=
  { id := "p1", parentId := none, type := "paragraph", content := "parent",
    contentHtml := none, position := "m", hash := "hp", createdAt := 1,
    updatedAt := 1, createdBy := "u1", published := true, deletedAt := none }

def c4Child : Block :=
  { id := "c1", parentId := some "p1", type := "paragraph", content := "child",
    contentHtml := none, position := "m", hash := "hc", createdAt := 2,
    updatedAt := 2, createdBy := "u1", published := false, deletedAt := none }

def c4Meta : SessionMeta :=
  { sessionId := "s4", userId := "u1", userType := "human",
    createdAt := 0, lastActivity := 0, baseSnapshot := "1:1",
    schemaVersion := 1, schemaHash := "sh", status := .submitted }

/-- The session deleted its copy of `p1` (DeleteBlock sets `deleted_at`
and `_dirty = 1`) and inserted the new block `c1` with
`parent_id = p1`. -/
def c4Store : SessionStore :=
  { meta := c4Meta,
    blocks := [{ block := { c4Parent with deletedAt := some 5 },
                 dirty := true, source := "copy" },
               { block := c4Child, dirty := true, source := "new" }],
    changes := [{ id := 1, operation := "delete", blockId := "p1",
                  beforeRef := none, afterRef := none, merged := false },
                { id := 2, operation := "insert", blockId := "c1",
                  beforeRef := none, afterRef := none, merged := false }],
    deps := [{ blockId := "p1", dependsOn := [],
               snapshotHashes := [("p1", "hp")] }] }

def c4Canon : Canonical := { blocks := [c4Parent], refs := [] }

/-- C4 (code_bug).  A session that deletes block `p1` and inserts a new
dirty block `c1` with `parent_id = p1` passes validation with zero
conflicts (the parent check only asks whether a canonical row with that
id exists, ignoring both the in-session deletion and `deleted_at`), and
the merge then applies both changes: the resulting canonical store has
the live child `c1` whose `parent_id` points at the soft-deleted `p1` —
a dangling parent, which the specification says must be rejected as a
Structure conflict with nothing applied. -/
theorem delete_parent_not_rejected :
    validateSession 1 c4Store c4Canon = .ok [] ∧
    ((applyChanges c4Store c4Canon 9 true).2.2).isOk = true ∧
    ((applyChanges c4Store c4Canon 9 true).1.blocks.filter
        (fun b => b.id == "c1" && b.deletedAt == none && b.parentId == some "p1")).length = 1 ∧
    ((applyChanges c4Store c4Canon 9 true).1.blocks.filter
        (fun b => b.id == "p1" && !(b.deletedAt == none))).length = 1 := by
  decide

/-! ## Conflict resolver (src/v2/pkg/conflicts/resolver.go)

`ApplyResolution` rewrites session rows according to the user's choice.
The SHA-256 recomputation of `UpdateHash` is abstracted as the `hashFn`
parameter. -/

/-- A `conflicts.Resolution`. -/
structure Resolution where
  blockId : String
  choice : String
  mergedBlock : Option Block
  newParentId : Option String
deriving DecidableEq

/-- `json_set(snapshot_hashes, '$.' || blockID, hash)`: set the key,
adding it when absent. -/
def setHash (hs : List (String × String)) (key hash : String) :
    List (String × String) :=
  if hs.any (fun kv => kv.1 == key) then
    hs.map (fun kv => if kv.1 == key then (key, hash) else kv)
  else hs ++ [(key, hash)]

/-- `Resolver.updateSnapshotHash` (keep_session): read the current
canonical hash (error when the canonical row is gone) and write it into
the snapshot-hash map of that block's `_structural_deps` row. -/
def updateSnapshotHash (canon : Canonical) (store : SessionStore)
    (blockID : String) : Except String SessionStore :=
  match findBlock canon.blocks blockID with
  | none => .error "no rows in result set"
  | some b =>
    let newDeps := store.deps.map (fun d =>
      if d.blockId == blockID then
        { d with snapshotHashes := setHash d.snapshotHashes blockID b.hash }
      else d)
    .ok { store with deps := newDeps }

/-- The row rewriteRow of `replaceWithContentVersion`: overwrite the
session row's columns from the canonical row, stamp `updated_at`, clear
`_dirty` (`created_at`, `created_by`, `published` and `_source` are not
written). -/
def overwriteFromCanonical (r : SessBlock) (b : Block) (now : Nat) : SessBlock :=
  let nb := { r.block with
    parentId := b.parentId, type := b.type, content := b.content,
    contentHtml := b.contentHtml, position := b.position, hash := b.hash,
    updatedAt := now }
  { r with block := nb, dirty := false }

/-- `Resolver.replaceWithContentVersion` (keep_content). -/
def replaceWithContentVersion (canon : Canonical) (store : SessionStore)
    (blockID : String) (now : Nat) : Except String SessionStore :=
  match findBlock canon.blocks blockID with
  | none => .error "no rows in result set"
  | some b =>
    let newBlocks := store.blocks.map (fun r =>
      if r.block.id == blockID then overwriteFromCanonical r b now else r)
    .ok { store with blocks := newBlocks }

/-- `Resolver.applyMergedBlock` (merge): recompute the hash of the
user-supplied block, stamp `updated_at`, and write the row with
`_dirty = 1`. -/
def applyMergedBlock (hashFn : String → String) (store : SessionStore)
    (blk : Block) (now : Nat) : SessionStore :=
  let newHash := hashFn blk.content
  let rewriteRow := fun (r : SessBlock) =>
    let nb := { r.block with
      content := blk.content, contentHtml := blk.contentHtml,
      position := blk.position, hash := newHash, updatedAt := now }
    { r with block := nb, dirty := true }
  let newBlocks := store.blocks.map (fun r =>
    if r.block.id == blk.id then rewriteRow r else r)
  { store with blocks := newBlocks }

/-- `Resolver.markAsNew` (recreate). -/
def markAsNew (store : SessionStore) (blockID : String) : SessionStore :=
  let newBlocks := store.blocks.map (fun r =>
    if r.block.id == blockID then { r with source := "new", dirty := true } else r)
  { store with blocks := newBlocks }

/-- `Resolver.updateParent` (new_parent). -/
def updateParent (store : SessionStore) (blockID newParent : String)
    (now : Nat) : SessionStore :=
  let rewriteRow := fun (r : SessBlock) =>
    let nb := { r.block with parentId := some newParent, updatedAt := now }
    { r with block := nb, dirty := true }
  let newBlocks := store.blocks.map (fun r =>
    if r.block.id == blockID then rewriteRow r else r)
  { store with blocks := newBlocks }

/-- `Resolver.makeRoot` (make_root). -/
def makeRoot (store : SessionStore) (blockID : String) (now : Nat) : SessionStore :=
  let rewriteRow := fun (r : SessBlock) =>
    let nb := { r.block with parentId := none, updatedAt := now }
    { r with block := nb, dirty := true }
  let newBlocks := store.blocks.map (fun r =>
    if r.block.id == blockID then rewriteRow r else r)
  { store with blocks := newBlocks }

/-- `Resolver.discardBlock` (discard): delete the block row, its change
rows and its dep row from the session. -/
def discardBlock (store : SessionStore) (blockID : String) : SessionStore :=
  { store with blocks := store.blocks.filter (fun r => !(r.block.id == blockID)),
               changes := store.changes.filter (fun c => !(c.blockId == blockID)),
               deps := store.deps.filter (fun d => !(d.blockId == blockID)) }

/-- `Resolver.ApplyResolution`: dispatch on the resolution choice.  No
branch writes `_session_meta`. -/
def applyResolution (canon : Canonical) (hashFn : String → String)
    (store : SessionStore) (r : Resolution) (now : Nat) :
    Except String SessionStore :=
  if r.choice == "keep_session" then updateSnapshotHash canon store r.blockId
  else if r.choice == "keep_content" then
    replaceWithContentVersion canon store r.blockId now
  else if r.choice == "merge" then
    match r.mergedBlock with
    | none => .error "merged_block required for merge resolution"
    | some blk => .ok (applyMergedBlock hashFn store blk now)
  else if r.choice == "recreate" then .ok (markAsNew store r.blockId)
  else if r.choice == "new_parent" then
    match r.newParentId with
    | none => .error "new_parent_id required"
    | some p => .ok (updateParent store r.blockId p now)
  else if r.choice == "make_root" then .ok (makeRoot store r.blockId now)
  else if r.choice == "discard" then .ok (discardBlock store r.blockId)
  else .error ("unknown resolution choice: " ++ r.choice)

/-- A full batch of resolutions, one `ApplyResolution` call per entry,
as the caller of the resolver would apply it. -/
def applyResolutionBatch (canon : Canonical) (hashFn : String → String)
    (now : Nat) : SessionStore → List Resolution → Except String SessionStore
  | store, [] => .ok store
  | store, r :: rest =>
    match applyResolution canon hashFn store r now with
    | .error e => .error e
    | .ok st2 => applyResolutionBatch canon hashFn now st2 rest

theorem updateSnapshotHash_meta (canon : Canonical) (store : SessionStore)
    (blockID : String) (st2 : SessionStore)
    (h : updateSnapshotHash canon store blockID = .ok st2) :
    st2.meta = store.meta := by
  unfold updateSnapshotHash at h
  cases hf : findBlock canon.blocks blockID with
  | none => rw [hf] at h; simp at h
  | some b =>
    rw [hf] at h
    injection h with h2
    rw [← h2]

theorem replaceWithContentVersion_meta (canon : Canonical) (store : SessionStore)
    (blockID : String) (now : Nat) (st2 : SessionStore)
    (h : replaceWithContentVersion canon store blockID now = .ok st2) :
    st2.meta = store.meta := by
  unfold replaceWithContentVersion at h
  cases hf : findBlock canon.blocks blockID with
  | none => rw [hf] at h; simp at h
  | some b =>
    rw [hf] at h
    injection h with h2
    rw [← h2]

theorem applyResolution_meta (canon : Canonical) (hashFn : String → String)
    (store : SessionStore) (r : Resolution) (now : Nat) (st2 : SessionStore)
    (h : applyResolution canon hashFn store r now = .ok st2) :
    st2.meta = store.meta := by
  unfold applyResolution at h
  repeat' split at h
  all_goals
    first
      | exact updateSnapshotHash_meta canon store r.blockId st2 h
      | exact replaceWithContentVersion_meta canon store r.blockId now st2 h
      | (injection h with h2; rw [← h2]; try rfl)
      | simp at h

/-- C8 (code_bug).  After applying any batch of resolutions — in
particular the full batch of a conflicted session — the session's
`_session_meta` row is unchanged: no helper of `ApplyResolution` writes
it, and the API layer's resolveConflicts endpoint is an unimplemented
stub.  The status therefore remains `conflict` instead of returning to
`active`, so the session can never be resubmitted (`Submit` requires
`active`). -/
theorem applyResolution_keeps_status (canon : Canonical)
    (hashFn : String → String) (now : Nat) :
    ∀ (rs : List Resolution) (store st2 : SessionStore),
      applyResolutionBatch canon hashFn now store rs = .ok st2 →
      st2.meta = store.meta := by
  intro rs
  induction rs with
  | nil =>
    intro store st2 h
    injection h with h2
    rw [← h2]
  | cons r rest ih =>
    intro store st2 h
    unfold applyResolutionBatch at h
    cases hr : applyResolution canon hashFn store r now with
    | error e => rw [hr] at h; simp at h
    | ok stMid =>
      rw [hr] at h
      rw [ih stMid st2 h]
      exact applyResolution_meta canon hashFn store r now stMid hr

def c8Meta : SessionMeta :=
  { sessionId := "s8", userId := "u1", userType := "human",
    createdAt := 0, lastActivity := 0, baseSnapshot := "0:",
    schemaVersion := 1, schemaHash := "sh", status := .conflict }

def c8CanonBlock : Block :=
  { id := "b1", parentId := none, type := "paragraph", content := "Hi",
    contentHtml := none, position := "m", hash := "h2", createdAt := 1,
    updatedAt := 2, createdBy := "u2", published := true, deletedAt := none }

def c8Canon : Canonical := { blocks := [c8CanonBlock], refs := [] }

def c8SessBlock : Block :=
  { id := "b1", parentId := none, type := "paragraph", content := "Hey",
    contentHtml := none, position := "m", hash := "h3", createdAt := 1,
    updatedAt := 3, createdBy := "u2", published := true, deletedAt := none }

def c8Store : SessionStore :=
  { meta := c8Meta,
    blocks := [{ block := c8SessBlock, dirty := true, source := "copy" }],
    changes := [],
    deps := [{ blockId := "b1", dependsOn := [],
               snapshotHashes := [("b1", "h1")] }] }

def c8Hash (s : String) : String := s

def c8Res : Resolution :=
  { blockId := "b1", choice := "keep_session", mergedBlock := none,
    newParentId := none }

def c8StoreAfter : SessionStore :=
  { c8Store with deps := [{ blockId := "b1", dependsOn := [],
                            snapshotHashes := [("b1", "h2")] }] }

/-- Witness for `applyResolution_keeps_status`: resolving the single
Content conflict of a conflicted session with keep_session succeeds
(the snapshot hash is rewritten to the canonical `h2`) but the status is
still `conflict`, not `active`. -/
theorem applyResolution_keeps_status_witness :
    applyResolutionBatch c8Canon c8Hash 9 c8Store [c8Res] = .ok c8StoreAfter ∧
    c8StoreAfter.meta.status = Status.conflict ∧
    c8StoreAfter.meta = c8Store.meta :=
  have h : applyResolutionBatch c8Canon c8Hash 9 c8Store [c8Res] = .ok c8StoreAfter := by
    decide
  ⟨h, by decide, applyResolution_keeps_status c8Canon c8Hash 9 [c8Res] c8Store c8StoreAfter h⟩

/-! ## Page cache (src/v2/pkg/cache/cache.go) -/

/-- The byte stream fed to SHA-256 by `Cache.KeyForPage`: the page path
followed by `k ∥ v` for each parameter *in enumeration order*.  The
cache key is the first 16 hex characters of the digest of this stream,
so two equal streams give equal keys and two different streams give
different keys (up to SHA-256 collision): key determinism is exactly
determinism of this stream. -/
def keyForPageInput (path : String) (params : List (String × String)) : String :=
  params.foldl (fun acc kv => acc ++ kv.1 ++ kv.2) path

/-- C6 (code_bug).  `KeyForPage` iterates the parameter map with Go
`range`, whose enumeration order is randomized between calls, and —
despite its own comment "Sort and hash params for deterministic key" —
performs no sorting.  The same two-entry parameter map enumerated in its
two possible orders (a permutation of the same bindings) feeds two
different streams to the hash, so two calls with the same arguments can
return different keys. -/
theorem keyForPage_order_dependent :
    [("a", "1"), ("b", "2")].Perm [("b", "2"), ("a", "1")] ∧
    keyForPageInput "/x" [("a", "1"), ("b", "2")] ≠
      keyForPageInput "/x" [("b", "2"), ("a", "1")] := by
  constructor
  · exact List.Perm.swap ("b", "2") ("a", "1") []
  · decide

/-- A cache entry (`cache.entry`): key, size, creation and access
times, and the block ids the page depends on. -/
structure CacheEntry where
  key : String
  size : Int
  createdAt : Nat
  accessedAt : Nat
  blocks : List String
deriving DecidableEq

/-- The cache state: the `entries` map (modelled as a list), the
reverse index `blockPages`, and the running size counter `csize`
(`Cache.size`, an int64). -/
structure CacheState where
  enabled : Bool
  maxSize : Int
  entries : List CacheEntry
  blockPages : List (String × List String)
  csize : Int
deriving DecidableEq

/-- The body of the `evictOldest` scan: keep the entry with the
strictly smaller `accessedAt`. -/
def pickOlder : Option CacheEntry → CacheEntry → Option CacheEntry
  | none, e => some e
  | some b, e => if e.accessedAt < b.accessedAt then some e else some b

/-- The scan of `evictOldest` over the entries map. -/
def findOldest (es : List CacheEntry) : Option CacheEntry :=
  es.foldl pickOlder none

/-- `Cache.removeBlockMapping`: drop the first occurrence of `pageKey`
from the block's page list, and delete the binding when it becomes
empty. -/
def removeFirst (l : List String) (k : String) : List String :=
  match l with
  | [] => []
  | x :: xs => if x == k then xs else x :: removeFirst xs k

def removeBlockMapping (bp : List (String × List String))
    (blockID pageKey : String) : List (String × List String) :=
  let bp2 := bp.map (fun p => if p.1 == blockID then (p.1, removeFirst p.2 pageKey) else p)
  bp2.filter (fun p => !(p.1 == blockID) || !p.2.isEmpty)

/-- `Cache.evictOldest`: remove the least-recently-accessed entry,
subtract its size, and drop its block mappings. -/
def evictOldest (c : CacheState) : CacheState :=
  match findOldest c.entries with
  | none => c
  | some o =>
    let newEntries := c.entries.filter (fun e => !(e.key == o.key))
    let newBp := o.blocks.foldl (fun bp b => removeBlockMapping bp b o.key) c.blockPages
    { c with entries := newEntries, csize := c.csize - o.size, blockPages := newBp }

theorem foldl_pickOlder_mem :
    ∀ (es : List CacheEntry) (b : Option CacheEntry) (o : CacheEntry),
      es.foldl pickOlder b = some o → b = some o ∨ o ∈ es := by
  intro es
  induction es with
  | nil => intro b o h; exact Or.inl h
  | cons e rest ih =>
    intro b o h
    rcases ih (pickOlder b e) o h with h1 | h1
    · cases b with
      | none =>
        simp only [pickOlder] at h1
        injection h1 with h2
        exact Or.inr (by rw [← h2]; exact List.mem_cons_self e rest)
      | some bb =>
        simp only [pickOlder] at h1
        by_cases hlt : e.accessedAt < bb.accessedAt
        · rw [if_pos hlt] at h1
          injection h1 with h2
          exact Or.inr (by rw [← h2]; exact List.mem_cons_self e rest)
        · rw [if_neg hlt] at h1
          exact Or.inl h1
    · exact Or.inr (List.mem_cons_of_mem e h1)

theorem findOldest_mem (es : List CacheEntry) (o : CacheEntry)
    (h : findOldest es = some o) : o ∈ es := by
  rcases foldl_pickOlder_mem es none o h with h1 | h1
  · simp at h1
  · exact h1

theorem foldl_pickOlder_isSome :
    ∀ (es : List CacheEntry) (b : CacheEntry),
      (es.foldl pickOlder (some b)).isSome = true := by
  intro es
  induction es with
  | nil => intro b; rfl
  | cons e rest ih =>
    intro b
    simp only [List.foldl, pickOlder]
    by_cases hlt : e.accessedAt < b.accessedAt
    · rw [if_pos hlt]; exact ih e
    · rw [if_neg hlt]; exact ih b

theorem findOldest_isSome (es : List CacheEntry) (h : es ≠ []) :
    (findOldest es).isSome = true := by
  cases es with
  | nil => exact absurd rfl h
  | cons e rest =>
    unfold findOldest
    simp only [List.foldl]
    rw [show pickOlder none e = some e from rfl]
    exact foldl_pickOlder_isSome rest e

theorem evictOldest_length (c : CacheState) (h : c.entries ≠ []) :
    (evictOldest c).entries.length < c.entries.length := by
  unfold evictOldest
  cases hf : findOldest c.entries with
  | none =>
    have hs := findOldest_isSome c.entries h
    rw [hf] at hs
    simp at hs
  | some o =>
    simp only
    apply List.length_filter_lt_length_iff_exists.mpr
    exact ⟨o, findOldest_mem c.entries o hf, by simp⟩

theorem sum_filter_key (o : CacheEntry) :
    ∀ (es : List CacheEntry), (es.map (fun e => e.key)).Nodup → o ∈ es →
      ((es.filter (fun e => !(e.key == o.key))).map (fun e => e.size)).sum =
        (es.map (fun e => e.size)).sum - o.size := by
  intro es
  induction es with
  | nil => intro _ hmem; simp at hmem
  | cons e rest ih =>
    intro hnd hmem
    rw [List.map_cons, List.nodup_cons] at hnd
    obtain ⟨hknotin, hndrest⟩ := hnd
    by_cases hk : e.key = o.key
    · have ho : o = e := by
        rcases List.mem_cons.mp hmem with h1 | h1
        · exact h1
        · exact absurd (List.mem_map.mpr ⟨o, h1, hk.symm⟩) hknotin
      have hrest : rest.filter (fun x => !(x.key == o.key)) = rest := by
        rw [List.filter_eq_self]
        intro a ha
        simp only [Bool.not_eq_eq_eq_not, Bool.not_true, beq_eq_false_iff_ne, ne_eq]
        intro hcon
        exact hknotin (List.mem_map.mpr ⟨a, ha, by rw [hcon, ← hk]⟩)
      simp only [List.filter_cons]
      rw [show (!(e.key == o.key)) = false by simp [hk]]
      simp only [Bool.false_eq_true, if_false]
      rw [hrest, ho]
      simp only [List.map_cons, List.sum_cons]
      omega
    · have ho2 : o ∈ rest := by
        rcases List.mem_cons.mp hmem with h1 | h1
        · exact absurd (congrArg (fun x => x.key) h1).symm hk
        · exact h1
      simp only [List.filter_cons]
      rw [show (!(e.key == o.key)) = true by simp [hk]]
      simp only [if_true]
      rw [List.map_cons, List.map_cons, List.sum_cons, List.sum_cons,
        ih hndrest ho2]
      omega

theorem evictOldest_inv (c : CacheState)
    (hinv : c.csize = (c.entries.map (fun e => e.size)).sum)
    (hnd : (c.entries.map (fun e => e.key)).Nodup) :
    (evictOldest c).csize = ((evictOldest c).entries.map (fun e => e.size)).sum ∧
    ((evictOldest c).entries.map (fun e => e.key)).Nodup ∧
    (evictOldest c).maxSize = c.maxSize ∧
    (∀ e ∈ (evictOldest c).entries, e ∈ c.entries) := by
  unfold evictOldest
  cases hf : findOldest c.entries with
  | none => exact ⟨hinv, hnd, rfl, fun e he => he⟩
  | some o =>
    refine ⟨?_, ?_, rfl, ?_⟩
    · simp only
      rw [sum_filter_key o c.entries hnd (findOldest_mem c.entries o hf), hinv]
    · have hsub := (List.filter_sublist (l := c.entries)
        (p := fun e => !(e.key == o.key))).map (fun e => e.key)
      exact hnd.sublist hsub
    · intro e he
      exact List.mem_of_mem_filter he

/-- The eviction loop of `Cache.Set`: while the new data does not fit
and the cache is non-empty, evict the oldest entry. -/
def evictLoop (c : CacheState) (need : Int) : CacheState :=
  if h : c.csize + need > c.maxSize ∧ c.entries ≠ [] then
    evictLoop (evictOldest c) need
  else c
termination_by c.entries.length
decreasing_by exact evictOldest_length c h.2

theorem evictLoop_oversized (need : Int) :
    ∀ (n : Nat) (c : CacheState), c.entries.length ≤ n →
      c.csize = (c.entries.map (fun e => e.size)).sum →
      (c.entries.map (fun e => e.key)).Nodup →
      (∀ e ∈ c.entries, 0 ≤ e.size) →
      need > c.maxSize →
      (evictLoop c need).entries = [] ∧ (evictLoop c need).csize = 0 := by
  intro n
  induction n with
  | zero =>
    intro c hlen hinv hnd hpos hneed
    have hc : c.entries = [] := List.length_eq_zero.mp (Nat.le_zero.mp hlen)
    unfold evictLoop
    rw [dif_neg (by simp [hc])]
    exact ⟨hc, by rw [hinv, hc]; rfl⟩
  | succ n ih =>
    intro c hlen hinv hnd hpos hneed
    by_cases hc : c.entries = []
    · unfold evictLoop
      rw [dif_neg (by simp [hc])]
      exact ⟨hc, by rw [hinv, hc]; rfl⟩
    · have hge : (0 : Int) ≤ c.csize := by
        rw [hinv]
        apply List.sum_nonneg
        intro x hx
        obtain ⟨e, he, hex⟩ := List.mem_map.mp hx
        rw [← hex]
        exact hpos e he
      have hcond : c.csize + need > c.maxSize ∧ c.entries ≠ [] := ⟨by omega, hc⟩
      rw [show evictLoop c need = evictLoop (evictOldest c) need by
        conv_lhs => unfold evictLoop
        rw [dif_pos hcond]]
      obtain ⟨h1, h2, h3, h4⟩ := evictOldest_inv c hinv hnd
      apply ih (evictOldest c)
      · have := evictOldest_length c hc
        omega
      · exact h1
      · exact h2
      · intro e he; exact hpos e (h4 e he)
      · rw [h3]; exact hneed

/-- `Cache.addBlockMapping` (the `Set` loop body
`blockPages[blockID] = append(blockPages[blockID], key)`). -/
def addBlockMapping (bp : List (String × List String))
    (blockID pageKey : String) : List (String × List String) :=
  if bp.any (fun p => p.1 == blockID) then
    bp.map (fun p => if p.1 == blockID then (p.1, p.2 ++ [pageKey]) else p)
  else bp ++ [(blockID, [pageKey])]

/-- `Cache.Set`: when the cache is disabled, do nothing; otherwise evict
least-recently-accessed entries while the new data does not fit and the
cache is non-empty, write the file (always — there is no size
rejection), subtract a replaced entry's size and drop its mappings,
record the new entry, and add its block mappings. -/
def cacheSet (c : CacheState) (key : String) (dataLen : Nat)
    (deps : List String) (now : Nat) : CacheState :=
  if !c.enabled then c
  else
    let c1 := evictLoop c (dataLen : Int)
    let e : CacheEntry := { key := key, size := (dataLen : Int),
                            createdAt := now, accessedAt := now, blocks := deps }
    let c2 :=
      match c1.entries.find? (fun r => r.key == key) with
      | some old =>
        let bp2 := old.blocks.foldl (fun bp b => removeBlockMapping bp b key) c1.blockPages
        { c1 with csize := c1.csize - old.size, blockPages := bp2 }
      | none => c1
    let newEntries := c2.entries.filter (fun r => !(r.key == key)) ++ [e]
    let newBp := deps.foldl (fun bp b => addBlockMapping bp b key) c2.blockPages
    { c2 with entries := newEntries, csize := c2.csize + (dataLen : Int),
              blockPages := newBp }

theorem find?_filter_append (es : List CacheEntry) (key : String) (sz : Int)
    (ca aa : Nat) (bs : List String) :
    ((es.filter (fun r => !(r.key == key))) ++
        [(⟨key, sz, ca, aa, bs⟩ : CacheEntry)]).find? (fun r => r.key == key) =
      some (⟨key, sz, ca, aa, bs⟩ : CacheEntry) := by
  rw [List.find?_append]
  have h1 : (es.filter (fun r => !(r.key == key))).find? (fun r => r.key == key) =
      none := by
    rw [List.find?_eq_none]
    intro x hx
    have hpx := List.of_mem_filter hx
    simp at hpx ⊢
    exact hpx
  rw [h1]
  simp [List.find?_cons]

/-- C10 (confirmed).  With the cache enabled, `Set` never rejects an
entry for being too large: the entry is always written and recorded
(the new entry, carrying the data's size, is found under its key after
the call); and when the data alone exceeds the configured maximum size,
the loop evicts least-recently-accessed entries until the cache is
empty, and the entry is still recorded, leaving the size counter equal
to the data's size — strictly above the configured maximum.  The
hypotheses are the cache invariants: the size counter equals the sum of
the entry sizes, keys are unique, and sizes are non-negative. -/
theorem cacheSet_oversized (c : CacheState) (key : String) (dataLen : Nat)
    (deps : List String) (now : Nat)
    (hen : c.enabled = true)
    (hinv : c.csize = (c.entries.map (fun e => e.size)).sum)
    (hnd : (c.entries.map (fun e => e.key)).Nodup)
    (hpos : ∀ e ∈ c.entries, 0 ≤ e.size) :
    ((cacheSet c key dataLen deps now).entries.find?
        (fun r => r.key == key)).map (fun r => r.size) = some (dataLen : Int) ∧
    ((dataLen : Int) > c.maxSize →
      (cacheSet c key dataLen deps now).entries =
        [{ key := key, size := (dataLen : Int), createdAt := now,
           accessedAt := now, blocks := deps }] ∧
      (cacheSet c key dataLen deps now).csize = (dataLen : Int) ∧
      (cacheSet c key dataLen deps now).csize > c.maxSize) := by
  constructor
  · simp only [cacheSet, hen, Bool.not_true, Bool.false_eq_true, if_false]
    cases hold : (evictLoop c (dataLen : Int)).entries.find? (fun r => r.key == key) with
    | some old =>
      simp only [hold]
      rw [find?_filter_append]
      rfl
    | none =>
      simp only [hold]
      rw [find?_filter_append]
      rfl
  · intro hbig
    obtain ⟨hemp, hzero⟩ := evictLoop_oversized (dataLen : Int) c.entries.length c
      (Nat.le_refl _) hinv hnd hpos hbig
    have hfind : (evictLoop c (dataLen : Int)).entries.find?
        (fun r => r.key == key) = none := by
      rw [hemp]; rfl
    refine ⟨?_, ?_, ?_⟩
    · simp only [cacheSet, hen, Bool.not_true, Bool.false_eq_true, if_false, hfind]
      rw [hemp]
      rfl
    · simp only [cacheSet, hen, Bool.not_true, Bool.false_eq_true, if_false, hfind]
      rw [hzero]
      ring
    · simp only [cacheSet, hen, Bool.not_true, Bool.false_eq_true, if_false, hfind]
      rw [hzero]
      omega

def c10State : CacheState :=
  { enabled := true, maxSize := 10,
    entries := [{ key := "k0", size := 5, createdAt := 0, accessedAt := 0,
                  blocks := [] }],
    blockPages := [], csize := 5 }

/-- Witness for `cacheSet_oversized`: storing 11 bytes in a 10-byte
cache holding one 5-byte entry evicts it, records the new entry, and
leaves the size counter at 11, above the maximum. -/
theorem cacheSet_oversized_witness :
    (cacheSet c10State "k1" 11 ["b1"] 7).entries =
      [{ key := "k1", size := (11 : Int), createdAt := 7, accessedAt := 7,
         blocks := ["b1"] }] ∧
    (cacheSet c10State "k1" 11 ["b1"] 7).csize > c10State.maxSize :=
  have h := (cacheSet_oversized c10State "k1" 11 ["b1"] 7 (by decide) (by decide)
    (by decide) (by decide)).2 (by decide)
  ⟨h.1, h.2.2⟩

end GoSQLPage
